import Mathlib

/-!
Verification of the Swindon waste-collection scraper against its design
specification.  The Python modules `api/services/uprn_lookup.py` and
`api/services/swindon_scraper.py` are shallowly embedded below: pure string
handling is translated to functions on `List Char` / `String`, the HTML soup
is abstracted to the structural values the code inspects (select tags with
their option tags, collection-block sections with their parsed fields), and
the retry loop of `_make_request` is an explicit state function recording the
backoff sleeps it performs.  Python string operations are modelled at ASCII
granularity (`str.upper`, `str.strip`, `str.isdigit`, `\s`), which is the
range the scraped council pages and postcodes use.
-/

namespace SwindonWaste

/-! ### Character classes used by `uprn_lookup.py`

`isLet`/`isDig` are the character classes `[A-Z]` (with `re.IGNORECASE`) and
`[0-9]` of the postcode pattern; `isWsPy` is the ASCII part of `\s`. -/

def isLet (c : Char) : Bool :=
  ('A' ≤ c && c ≤ 'Z') || ('a' ≤ c && c ≤ 'z')

def isDig (c : Char) : Bool :=
  '0' ≤ c && c ≤ '9'

def isWsPy (c : Char) : Bool :=
  c = ' ' || c = '\t' || c = '\n' || c = '\r' || c = '\x0b' || c = '\x0c'

/-! ### `UPRNLookupService._normalize_postcode`

Python: remove all `' '` characters, uppercase, and if the result has at
least 5 characters insert a single space before the last 3. -/

def despacedUpper (cs : List Char) : List Char :=
  (cs.filter (fun c => c ≠ ' ')).map Char.toUpper

def normalizeChars (cs : List Char) : List Char :=
  let d := despacedUpper cs
  if 5 ≤ d.length then d.take (d.length - 3) ++ ' ' :: d.drop (d.length - 3) else d

def normalize_postcode (s : String) : String :=
  ⟨normalizeChars s.data⟩

/-! ### `UPRNLookupService.validate_postcode`

The code runs `re.match(r'^[A-Z]{1,2}[0-9]{1,2}[A-Z]?\s?[0-9][A-Z]{2}$', n,
re.IGNORECASE)` on the normalized postcode `n`.  The pattern is embedded as a
nondeterministic matcher over `List Char`, one function per pattern tail;
`reMatch` additionally accounts for `$` accepting a single trailing newline. -/

def matchDLL : List Char → Bool
  | [d, l1, l2] => isDig d && isLet l1 && isLet l2
  | _ => false

def wsTail (cs : List Char) : Bool :=
  matchDLL cs ||
    (match cs with
     | c :: r => isWsPy c && matchDLL r
     | [] => false)

def optLetTail (cs : List Char) : Bool :=
  wsTail cs ||
    (match cs with
     | c :: r => isLet c && wsTail r
     | [] => false)

def digitsTail : List Char → Bool
  | d :: r =>
    isDig d &&
      (optLetTail r ||
        (match r with
         | d2 :: r2 => isDig d2 && optLetTail r2
         | [] => false))
  | [] => false

def coreMatch : List Char → Bool
  | l :: r =>
    isLet l &&
      (digitsTail r ||
        (match r with
         | l2 :: r2 => isLet l2 && digitsTail r2
         | [] => false))
  | [] => false

def reMatch (cs : List Char) : Bool :=
  coreMatch cs ||
    (match cs.getLast? with
     | some c => c = '\n' && coreMatch cs.dropLast
     | none => false)

def validate_postcode (s : String) : Bool :=
  reMatch (normalizeChars s.data)

/-! ### The spec's postcode grammar

Modelled from the spec's words: "1–2 letters, 1–2 digits, optional letter,
space, 1 digit, 2 letters" — the space is a mandatory single `' '`.  This is
the refinement target `validate_postcode` is compared against. -/

def specWsTail : List Char → Bool
  | c :: r => c = ' ' && matchDLL r
  | [] => false

def specOptLetTail (cs : List Char) : Bool :=
  specWsTail cs ||
    (match cs with
     | c :: r => isLet c && specWsTail r
     | [] => false)

def specDigitsTail : List Char → Bool
  | d :: r =>
    isDig d &&
      (specOptLetTail r ||
        (match r with
         | d2 :: r2 => isDig d2 && specOptLetTail r2
         | [] => false))
  | [] => false

def specGrammar : List Char → Bool
  | l :: r =>
    isLet l &&
      (specDigitsTail r ||
        (match r with
         | l2 :: r2 => isLet l2 && specDigitsTail r2
         | [] => false))
  | [] => false

example : normalize_postcode "SN15DX" = "SN1 5DX" := by decide
example : validate_postcode "SN15DX" = true := by decide
example : validate_postcode "ZZ99" = false := by decide
example : validate_postcode "sn1 5dx" = true := by decide
example : specGrammar ("SN1 5DX".data) = true := by decide

/-! ### Lemmas relating the regex matcher to the spec grammar -/

theorem matchDLL_length {cs : List Char} (h : matchDLL cs = true) : cs.length = 3 := by
  match cs with
  | [] => simp [matchDLL] at h
  | [_] => simp [matchDLL] at h
  | [_, _] => simp [matchDLL] at h
  | [_, _, _] => rfl
  | _ :: _ :: _ :: _ :: _ => simp [matchDLL] at h

theorem matchDLL_false_of_space {cs : List Char} (h : ' ' ∈ cs) : matchDLL cs = false := by
  match cs with
  | [] => rfl
  | [_] => rfl
  | [_, _] => rfl
  | [d, l1, l2] =>
    simp only [List.mem_cons, List.not_mem_nil, or_false] at h
    rcases h with h | h | h <;> subst h <;>
      simp [matchDLL, isDig, isLet]
  | _ :: _ :: _ :: _ :: _ => rfl

theorem wsTail_length {cs : List Char} (h : wsTail cs = true) : 3 ≤ cs.length := by
  rcases cs with _ | ⟨c, r⟩
  · simp [wsTail, matchDLL] at h
  · simp only [wsTail, Bool.or_eq_true, Bool.and_eq_true] at h
    rcases h with h | ⟨-, h⟩
    · have := matchDLL_length h
      omega
    · have := matchDLL_length h
      simp [List.length_cons]
      omega

theorem optLetTail_length {cs : List Char} (h : optLetTail cs = true) : 3 ≤ cs.length := by
  rcases cs with _ | ⟨c, r⟩
  · simp [optLetTail, wsTail, matchDLL] at h
  · simp only [optLetTail, Bool.or_eq_true, Bool.and_eq_true] at h
    rcases h with h | ⟨-, h⟩
    · exact wsTail_length h
    · have := wsTail_length h
      simp [List.length_cons]
      omega

theorem digitsTail_length {cs : List Char} (h : digitsTail cs = true) : 4 ≤ cs.length := by
  rcases cs with _ | ⟨d, r⟩
  · simp [digitsTail] at h
  · simp only [digitsTail, Bool.or_eq_true, Bool.and_eq_true] at h
    rcases h.2 with h2 | h2
    · have := optLetTail_length h2
      simp [List.length_cons]; omega
    · rcases r with _ | ⟨d2, r2⟩
      · simp at h2
      · simp only [Bool.and_eq_true] at h2
        have := optLetTail_length h2.2
        simp [List.length_cons]; omega

theorem coreMatch_length {cs : List Char} (h : coreMatch cs = true) : 5 ≤ cs.length := by
  rcases cs with _ | ⟨l, r⟩
  · simp [coreMatch] at h
  · simp only [coreMatch, Bool.or_eq_true, Bool.and_eq_true] at h
    rcases h.2 with h2 | h2
    · have := digitsTail_length h2
      simp [List.length_cons]; omega
    · rcases r with _ | ⟨l2, r2⟩
      · simp at h2
      · simp only [Bool.and_eq_true] at h2
        have := digitsTail_length h2.2
        simp [List.length_cons]; omega

theorem wsTail_shape {a b : List Char} (ha : ' ' ∉ a) :
    wsTail (a ++ ' ' :: b) = specWsTail (a ++ ' ' :: b) := by
  rcases a with _ | ⟨c, a⟩
  · simp only [List.nil_append, wsTail, specWsTail]
    rw [matchDLL_false_of_space (by simp)]
    simp [isWsPy]
  · have hc : ¬(c = ' ') := fun h => ha (by simp [h])
    simp only [List.cons_append, wsTail, specWsTail]
    rw [matchDLL_false_of_space (by simp), matchDLL_false_of_space (by simp)]
    simp [hc]

theorem optLetTail_shape {a b : List Char} (ha : ' ' ∉ a) :
    optLetTail (a ++ ' ' :: b) = specOptLetTail (a ++ ' ' :: b) := by
  rcases a with _ | ⟨c, a⟩
  · simp only [List.nil_append, optLetTail, specOptLetTail]
    rw [show (' ' :: b) = ([] ++ ' ' :: b) from rfl, wsTail_shape (by simp)]
    simp [isLet]
  · have ha1 : ' ' ∉ a := fun h => ha (List.mem_cons_of_mem _ h)
    simp only [List.cons_append, optLetTail, specOptLetTail]
    rw [← List.cons_append, wsTail_shape ha, wsTail_shape ha1]

theorem digitsTail_shape {a b : List Char} (ha : ' ' ∉ a) :
    digitsTail (a ++ ' ' :: b) = specDigitsTail (a ++ ' ' :: b) := by
  rcases a with _ | ⟨c, a⟩
  · simp [digitsTail, specDigitsTail, isDig]
  · have ha1 : ' ' ∉ a := fun h => ha (List.mem_cons_of_mem _ h)
    rcases a with _ | ⟨c2, a⟩
    · simp only [List.cons_append, List.nil_append, digitsTail, specDigitsTail]
      rw [show (' ' :: b) = ([] ++ ' ' :: b) from rfl, optLetTail_shape (by simp)]
      simp [isDig]
    · have ha2 : ' ' ∉ a := fun h => ha1 (List.mem_cons_of_mem _ h)
      simp only [List.cons_append, digitsTail, specDigitsTail]
      rw [← List.cons_append, optLetTail_shape ha1, optLetTail_shape ha2]

theorem coreMatch_shape {a b : List Char} (ha : ' ' ∉ a) :
    coreMatch (a ++ ' ' :: b) = specGrammar (a ++ ' ' :: b) := by
  rcases a with _ | ⟨c, a⟩
  · simp [coreMatch, specGrammar, isLet]
  · have ha1 : ' ' ∉ a := fun h => ha (List.mem_cons_of_mem _ h)
    rcases a with _ | ⟨c2, a⟩
    · simp only [List.cons_append, List.nil_append, coreMatch, specGrammar]
      rw [show (' ' :: b) = ([] ++ ' ' :: b) from rfl, digitsTail_shape (by simp)]
      simp [isLet]
    · have ha2 : ' ' ∉ a := fun h => ha1 (List.mem_cons_of_mem _ h)
      simp only [List.cons_append, coreMatch, specGrammar]
      rw [← List.cons_append, digitsTail_shape ha1, digitsTail_shape ha2]

theorem specWsTail_shape_imp {a b : List Char} (ha : ' ' ∉ a)
    (h : specWsTail (a ++ ' ' :: b) = true) : matchDLL b = true := by
  rcases a with _ | ⟨c, a⟩
  · simpa [specWsTail] using h
  · have hc : ¬(c = ' ') := fun hcc => ha (by simp [hcc])
    simp [specWsTail, hc] at h

theorem specOptLetTail_shape_imp {a b : List Char} (ha : ' ' ∉ a)
    (h : specOptLetTail (a ++ ' ' :: b) = true) : matchDLL b = true := by
  rcases a with _ | ⟨c, a⟩
  · simp only [List.nil_append, specOptLetTail, Bool.or_eq_true, Bool.and_eq_true] at h
    rcases h with h | ⟨hl, -⟩
    · simpa [specWsTail] using h
    · simp [isLet] at hl
  · have ha1 : ' ' ∉ a := fun hm => ha (List.mem_cons_of_mem _ hm)
    have hc : ¬(c = ' ') := fun hcc => ha (by simp [hcc])
    simp only [List.cons_append, specOptLetTail, Bool.or_eq_true, Bool.and_eq_true] at h
    rcases h with h1 | ⟨-, h2⟩
    · simp only [specWsTail, Bool.and_eq_true, decide_eq_true_eq] at h1
      exact absurd h1.1 hc
    · exact specWsTail_shape_imp ha1 h2

theorem specDigitsTail_shape_imp {a b : List Char} (ha : ' ' ∉ a)
    (h : specDigitsTail (a ++ ' ' :: b) = true) : matchDLL b = true := by
  rcases a with _ | ⟨c, a⟩
  · simp [specDigitsTail, isDig] at h
  · have ha1 : ' ' ∉ a := fun hm => ha (List.mem_cons_of_mem _ hm)
    rcases a with _ | ⟨c2, a⟩
    · simp only [List.cons_append, List.nil_append, specDigitsTail, Bool.and_eq_true,
        Bool.or_eq_true] at h
      rcases h.2 with h2 | h2
      · simp only [specOptLetTail, Bool.or_eq_true, Bool.and_eq_true] at h2
        rcases h2 with h2 | ⟨hl, -⟩
        · simpa [specWsTail] using h2
        · simp [isLet] at hl
      · simp [isDig] at h2
    · have ha2 : ' ' ∉ a := fun hm => ha1 (List.mem_cons_of_mem _ hm)
      simp only [List.cons_append, specDigitsTail, Bool.and_eq_true, Bool.or_eq_true] at h
      rcases h.2 with h2 | h2
      · rw [← List.cons_append] at h2
        exact specOptLetTail_shape_imp ha1 h2
      · exact specOptLetTail_shape_imp ha2 h2.2

theorem specGrammar_shape_imp {a b : List Char} (ha : ' ' ∉ a)
    (h : specGrammar (a ++ ' ' :: b) = true) : matchDLL b = true := by
  rcases a with _ | ⟨c, a⟩
  · simp [specGrammar, isLet] at h
  · have ha1 : ' ' ∉ a := fun hm => ha (List.mem_cons_of_mem _ hm)
    rcases a with _ | ⟨c2, a⟩
    · simp only [List.cons_append, List.nil_append, specGrammar, Bool.and_eq_true,
        Bool.or_eq_true] at h
      rcases h.2 with h2 | h2
      · exact specDigitsTail_shape_imp (a := []) (by simp) (by simpa using h2)
      · simp [isLet] at h2
    · have ha2 : ' ' ∉ a := fun hm => ha1 (List.mem_cons_of_mem _ hm)
      simp only [List.cons_append, specGrammar, Bool.and_eq_true, Bool.or_eq_true] at h
      rcases h.2 with h2 | h2
      · rw [← List.cons_append] at h2
        exact specDigitsTail_shape_imp ha1 h2
      · exact specDigitsTail_shape_imp ha2 h2.2

theorem specWsTail_space {cs : List Char} (h : specWsTail cs = true) : ' ' ∈ cs := by
  rcases cs with _ | ⟨c, r⟩
  · simp [specWsTail] at h
  · simp only [specWsTail, Bool.and_eq_true, decide_eq_true_eq] at h
    simp [h.1]

theorem specOptLetTail_space {cs : List Char} (h : specOptLetTail cs = true) : ' ' ∈ cs := by
  rcases cs with _ | ⟨c, r⟩
  · simp [specOptLetTail, specWsTail] at h
  · simp only [specOptLetTail, Bool.or_eq_true, Bool.and_eq_true] at h
    rcases h with h | ⟨-, h⟩
    · exact specWsTail_space h
    · exact List.mem_cons_of_mem _ (specWsTail_space h)

theorem specDigitsTail_space {cs : List Char} (h : specDigitsTail cs = true) : ' ' ∈ cs := by
  rcases cs with _ | ⟨d, r⟩
  · simp [specDigitsTail] at h
  · simp only [specDigitsTail, Bool.and_eq_true, Bool.or_eq_true] at h
    rcases h.2 with h2 | h2
    · exact List.mem_cons_of_mem _ (specOptLetTail_space h2)
    · rcases r with _ | ⟨d2, r2⟩
      · simp at h2
      · simp only [Bool.and_eq_true] at h2
        exact List.mem_cons_of_mem _ (List.mem_cons_of_mem _ (specOptLetTail_space h2.2))

theorem specGrammar_space {cs : List Char} (h : specGrammar cs = true) : ' ' ∈ cs := by
  rcases cs with _ | ⟨l, r⟩
  · simp [specGrammar] at h
  · simp only [specGrammar, Bool.and_eq_true, Bool.or_eq_true] at h
    rcases h.2 with h2 | h2
    · exact List.mem_cons_of_mem _ (specDigitsTail_space h2)
    · rcases r with _ | ⟨l2, r2⟩
      · simp at h2
      · simp only [Bool.and_eq_true] at h2
        exact List.mem_cons_of_mem _ (List.mem_cons_of_mem _ (specDigitsTail_space h2.2))

theorem toNat_ofNat_valid {n : Nat} (h : n.isValidChar) : (Char.ofNat n).toNat = n := by
  unfold Char.ofNat
  rw [dif_pos h]
  rfl

theorem toUpper_toNat (c : Char) :
    (Char.toUpper c).toNat =
      if 97 ≤ c.toNat ∧ c.toNat ≤ 122 then c.toNat - 32 else c.toNat := by
  show (if c.toNat ≥ 97 ∧ c.toNat ≤ 122 then Char.ofNat (c.toNat - 32) else c).toNat = _
  by_cases h : 97 ≤ c.toNat ∧ c.toNat ≤ 122
  · rw [if_pos h, if_pos h, toNat_ofNat_valid (Or.inl (by omega))]
  · rw [if_neg h, if_neg h]

theorem toUpper_ne_space {c : Char} (hc : c ≠ ' ') : Char.toUpper c ≠ ' ' := by
  intro h
  have ht := congrArg Char.toNat h
  rw [toUpper_toNat] at ht
  have hsp : (' ' : Char).toNat = 32 := rfl
  rw [hsp] at ht
  by_cases hr : 97 ≤ c.toNat ∧ c.toNat ≤ 122
  · rw [if_pos hr] at ht
    omega
  · rw [if_neg hr] at ht
    apply hc
    have hofn : Char.ofNat c.toNat = Char.ofNat 32 := by rw [ht]
    rw [Char.ofNat_toNat] at hofn
    exact hofn

theorem toUpper_idempotent (c : Char) :
    Char.toUpper (Char.toUpper c) = Char.toUpper c := by
  have hnat : (Char.toUpper (Char.toUpper c)).toNat = (Char.toUpper c).toNat := by
    rw [toUpper_toNat (Char.toUpper c), toUpper_toNat c]
    by_cases hr : 97 ≤ c.toNat ∧ c.toNat ≤ 122
    · rw [if_pos hr, if_neg (by omega)]
    · rw [if_neg hr, if_neg hr]
  have := congrArg Char.ofNat hnat
  rwa [Char.ofNat_toNat, Char.ofNat_toNat] at this

theorem despaced_no_space (cs : List Char) : ' ' ∉ despacedUpper cs := by
  intro h
  rcases List.mem_map.1 h with ⟨c, hc, hup⟩
  have hne : c ≠ ' ' := by simpa using List.of_mem_filter hc
  exact toUpper_ne_space hne hup

theorem reMatch_normalize_eq_spec (cs : List Char) :
    reMatch (normalizeChars cs) = specGrammar (normalizeChars cs) := by
  unfold normalizeChars
  set d := despacedUpper cs with hd
  have hds : ' ' ∉ d := despaced_no_space cs
  by_cases hlen : 5 ≤ d.length
  · rw [if_pos hlen]
    set a := d.take (d.length - 3) with hadef
    set b := d.drop (d.length - 3) with hbdef
    have hb3 : b.length = 3 := by
      rw [hbdef, List.length_drop]
      omega
    have ha : ' ' ∉ a := fun h => hds ((List.take_sublist _ _).subset h)
    have hbm : ' ' ∉ b := fun h => hds ((List.drop_sublist _ _).subset h)
    rcases b with _ | ⟨x, b⟩
    · simp at hb3
    rcases b with _ | ⟨y, b⟩
    · simp at hb3
    rcases b with _ | ⟨z, b⟩
    · simp at hb3
    rcases b with _ | ⟨w, b⟩
    · unfold reMatch
      rw [coreMatch_shape ha]
      have hre : (a ++ ' ' :: [x, y, z]) = (a ++ [' ', x, y]) ++ [z] := by simp
      have hlast : (a ++ ' ' :: [x, y, z]).getLast? = some z := by
        rw [hre]
        exact List.getLast?_concat _
      rw [hlast]
      by_cases hz : z = '\n'
      · have hdl : (a ++ ' ' :: [x, y, z]).dropLast = a ++ ' ' :: [x, y] := by
          rw [hre, List.dropLast_concat]
        rw [hdl]
        have hco : coreMatch (a ++ ' ' :: [x, y]) = false := by
          rw [coreMatch_shape ha]
          cases hsg : specGrammar (a ++ ' ' :: [x, y])
          · rfl
          · have := matchDLL_length (specGrammar_shape_imp ha hsg)
            simp at this
        rw [hco]
        simp
      · simp [hz]
    · simp at hb3
  · rw [if_neg hlen]
    have h1 : coreMatch d = false := by
      cases hc : coreMatch d
      · rfl
      · exact absurd (coreMatch_length hc) (by omega)
    have h2 : specGrammar d = false := by
      cases hg : specGrammar d
      · rfl
      · exact absurd (specGrammar_space hg) hds
    rw [h2]
    unfold reMatch
    rw [h1]
    rcases hgl : d.getLast? with _ | z
    · simp
    · have h3 : coreMatch d.dropLast = false := by
        cases hc : coreMatch d.dropLast
        · rfl
        · have := coreMatch_length hc
          rw [List.length_dropLast] at this
          omega
      simp [h3]

theorem filter_normalizeChars (cs : List Char) :
    (normalizeChars cs).filter (fun c => c ≠ ' ') = despacedUpper cs := by
  unfold normalizeChars
  set d := despacedUpper cs with hd
  have hds : ' ' ∉ d := despaced_no_space cs
  by_cases hlen : 5 ≤ d.length
  · rw [if_pos hlen]
    have ha : ∀ c ∈ d.take (d.length - 3), c ≠ ' ' := by
      intro c hc hsp
      exact hds (hsp ▸ (List.take_sublist _ _).subset hc)
    have hb : ∀ c ∈ d.drop (d.length - 3), c ≠ ' ' := by
      intro c hc hsp
      exact hds (hsp ▸ (List.drop_sublist _ _).subset hc)
    have hfa : (d.take (d.length - 3)).filter (fun c => c ≠ ' ') = d.take (d.length - 3) :=
      List.filter_eq_self.mpr (fun c hc => by simpa using ha c hc)
    have hfb : (d.drop (d.length - 3)).filter (fun c => c ≠ ' ') = d.drop (d.length - 3) :=
      List.filter_eq_self.mpr (fun c hc => by simpa using hb c hc)
    simp only [List.filter_append, List.filter_cons, hfa, hfb]
    simp [List.take_append_drop]
  · rw [if_neg hlen]
    exact List.filter_eq_self.mpr (by
      intro c hc
      simp only [decide_eq_true_eq]
      intro hsp
      exact hds (hsp ▸ hc))

theorem despacedUpper_normalizeChars (cs : List Char) :
    despacedUpper (normalizeChars cs) = despacedUpper cs := by
  show ((normalizeChars cs).filter (fun c => c ≠ ' ')).map Char.toUpper = _
  rw [filter_normalizeChars]
  unfold despacedUpper
  rw [List.map_map]
  exact List.map_congr_left fun c _ => toUpper_idempotent c

theorem normalizeChars_idem (cs : List Char) :
    normalizeChars (normalizeChars cs) = normalizeChars cs := by
  show (let d := despacedUpper (normalizeChars cs);
    if 5 ≤ d.length then d.take (d.length - 3) ++ ' ' :: d.drop (d.length - 3) else d) = _
  rw [despacedUpper_normalizeChars]
  rfl

/-! ### `UPRNLookupService.lookup`, steps 3–5

The parsed response page is abstracted to its list of `select` elements in
document order, each carrying its `name`/`id` attributes and `option` tags.
`findAddressSelect` is the fallback chain of lines 140–167; `extractAddresses`
is the option filter of lines 175–199; `lookupFromPage` is the tail of
`lookup` including the two `UPRNLookupError` raise sites (lines 169–208),
with errors as the raised message strings. -/

structure OptionTag where
  value : String
  text : String
deriving DecidableEq

structure Candidate where
  uprn : String
  address : String
deriving DecidableEq

def pyStrip (cs : List Char) : List Char :=
  ((cs.dropWhile isWsPy).reverse.dropWhile isWsPy).reverse

def stripStr (s : String) : String :=
  ⟨pyStrip s.data⟩

def isdigitStr (s : String) : Bool :=
  !s.data.isEmpty && s.data.all isDig

def startsWithChars : List Char → List Char → Bool
  | _, [] => true
  | [], _ :: _ => false
  | c :: cs, p :: ps => c = p && startsWithChars cs ps

def containsSub : List Char → List Char → Bool
  | [], pat => startsWithChars [] pat
  | c :: cs, pat => startsWithChars (c :: cs) pat || containsSub cs pat

def lowerChars (s : String) : List Char :=
  s.data.map Char.toLower

def hasPlaceholderWord (text : String) : Bool :=
  containsSub (lowerChars text) "select".data ||
    containsSub (lowerChars text) "choose".data ||
    containsSub (lowerChars text) "please".data

def keepOption (o : OptionTag) : Bool :=
  !(stripStr o.value == "" || stripStr o.value == "0" || stripStr o.value == "-1") &&
    !hasPlaceholderWord o.text &&
    (isdigitStr (stripStr o.value) && 8 ≤ (stripStr o.value).length)

def extractAddresses (options : List OptionTag) : List Candidate :=
  options.filterMap fun o =>
    if keepOption o then some ⟨stripStr o.value, o.text⟩ else none

/-- The per-candidate filter exactly as the spec words it: identifier
non-empty, not "0", not "-1", purely numeric, at least 8 characters, label
free of the placeholder words.  The identifier of an option is its
whitespace-stripped `value` attribute, which is what the code extracts. -/
def specKeep (o : OptionTag) : Bool :=
  !(stripStr o.value == "") && !(stripStr o.value == "0") && !(stripStr o.value == "-1") &&
    isdigitStr (stripStr o.value) && 8 ≤ (stripStr o.value).length &&
    !hasPlaceholderWord o.text

theorem keepOption_eq_specKeep (o : OptionTag) : keepOption o = specKeep o := by
  unfold keepOption specKeep
  rw [Bool.not_or, Bool.not_or]
  ac_rfl

structure SelectTag where
  name : Option String
  id : Option String
  options : List OptionTag
deriving DecidableEq

def nameContainsAddress (s : SelectTag) : Bool :=
  match s.name with
  | some n => containsSub (lowerChars n) "address".data
  | none => false

def idContainsAddress (s : SelectTag) : Bool :=
  match s.id with
  | some n => containsSub (lowerChars n) "address".data
  | none => false

def findAddressSelect (selects : List SelectTag) : Option SelectTag :=
  (selects.find? (fun s => s.name == some "addressList")).orElse fun _ =>
  (selects.find? (fun s => s.name == some "address")).orElse fun _ =>
  (selects.find? (fun s => s.name == some "uprn")).orElse fun _ =>
  (selects.find? (fun s => s.id == some "addressList")).orElse fun _ =>
  (selects.find? (fun s => s.id == some "address")).orElse fun _ =>
  (selects.find? nameContainsAddress).orElse fun _ =>
  (selects.find? idContainsAddress).orElse fun _ =>
  match selects with
  | [s] => some s
  | _ => none

def noContainerMsg (pc : String) : String :=
  "No addresses found for postcode: " ++ pc ++
    ". The postcode may be invalid or the website structure has changed."

def noValidAddressesMsg (pc : String) : String :=
  "No valid addresses found for postcode: " ++ pc ++
    ". The postcode may not be in the Swindon area."

def lookupFromPage (normPc : String) (selects : List SelectTag) :
    Except String (List Candidate) :=
  match findAddressSelect selects with
  | none => .error (noContainerMsg normPc)
  | some sel =>
    let addresses := extractAddresses sel.options
    if addresses.isEmpty then .error (noValidAddressesMsg normPc)
    else .ok addresses

/-! ### `SwindonScraper._make_request`

One attempt's observable outcome is either an HTTP response status or a
`requests` connection error.  The loop (lines 97–123) is embedded as a
function over the per-attempt outcomes; alongside the final result it records
the list of `time.sleep` delays performed, in order.  `raise_for_status`
raises `HTTPError` (a `RequestException`) for statuses in [400, 600), which
lands in the same retry branch as connection errors; its message is rendered
here as "HTTP " followed by the status code. -/

inductive AttemptOutcome where
  | status (code : Nat)
  | netErr (msg : String)
deriving DecidableEq

inductive ReqResult where
  | ok (attemptIdx : Nat)
  | err (msg : String)
deriving DecidableEq

structure RunResult where
  result : ReqResult
  sleeps : List Nat
deriving DecidableEq

def addSleep (d : Nat) (r : RunResult) : RunResult :=
  ⟨r.result, d :: r.sleeps⟩

def retryDelay (base attempt : Nat) : Nat :=
  min (base * 2 ^ attempt) 30

def makeRequestLoop (base : Nat) (outcomes : Nat → AttemptOutcome) :
    Nat → Nat → RunResult
  | 0, _ => ⟨.err "Max retries exceeded", []⟩
  | remaining + 1, attempt =>
    match outcomes attempt with
    | .status code =>
      if code = 403 then
        if remaining = 0 then ⟨.err "Rate limited by server (403)", []⟩
        else addSleep (retryDelay base attempt)
          (makeRequestLoop base outcomes remaining (attempt + 1))
      else if 400 ≤ code && code < 600 then
        if remaining = 0 then
          ⟨.err ("Failed to fetch data: HTTP " ++ toString code), []⟩
        else addSleep (retryDelay base attempt)
          (makeRequestLoop base outcomes remaining (attempt + 1))
      else ⟨.ok attempt, []⟩
    | .netErr m =>
      if remaining = 0 then ⟨.err ("Failed to fetch data: " ++ m), []⟩
      else addSleep (retryDelay base attempt)
        (makeRequestLoop base outcomes remaining (attempt + 1))

def make_request (maxRetries base : Nat) (outcomes : Nat → AttemptOutcome) : RunResult :=
  makeRequestLoop base outcomes maxRetries 0

/-! ### `SwindonScraper.get_collections`

The parsed response markup is abstracted to the list of
`div.bin-collection-content` sections in document order.  Per section the
code reads: the `h3` text (absent ⇒ the section is skipped), the class list
of the `div.bin-icons` child if present, the parsed `nextCollectionDate`
value and the parsed future-collection dates (date strings that fail both
`strptime` formats are skipped with a warning and so contribute nothing; the
embedding therefore carries dates already parsed, as day numbers).  The
tables are the class dictionaries in their Python insertion order. -/

def BASE_URL : String := "https://www.swindon.gov.uk"

def BIN_ICON_IMAGES : List (String × String) :=
  [("black-food-bin-icon", BASE_URL ++ "/images/black_wheelie_food_bin_swindon.png"),
   ("recycle-blue-weighted-food-icon", BASE_URL ++ "/images/recycling_blue_food_swindon.png"),
   ("recycle-blue-weighted-icon", BASE_URL ++ "/images/recycling_blue_weighted_swindon.png"),
   ("rubbish-blue-bag-food-icon", BASE_URL ++ "/images/rubbish_blue_bag_food_swindon.png"),
   ("garden-bin-icon", BASE_URL ++ "/images/green_waste_wheelie_swindon.png"),
   ("garden-bag-icon", BASE_URL ++ "/images/plastic_bag_green_swindon.png"),
   ("black-bin-icon", BASE_URL ++ "/images/black_wheelie_swindon.png"),
   ("refuse-communal-bin-icon", BASE_URL ++ "/images/communal_bin_swindon.png"),
   ("recycling-communal-bin-icon", BASE_URL ++ "/images/communal_recyling_swindon.png")]

def WASTE_TYPE_ICONS : List (String × String) :=
  [("Rubbish bin", "trash-can"),
   ("Rubbish bin and food waste", "trash-can"),
   ("Recycling boxes", "recycle"),
   ("Recycling and food waste", "recycle"),
   ("Garden waste bin", "leaf"),
   ("Garden waste", "leaf"),
   ("Plastics", "bottle")]

def WASTE_TYPE_COLORS : List (String × String) :=
  [("Rubbish bin", "rubbish"),
   ("Rubbish bin and food waste", "rubbish"),
   ("Recycling boxes", "recycling"),
   ("Recycling and food waste", "recycling"),
   ("Garden waste bin", "garden"),
   ("Garden waste", "garden"),
   ("Plastics", "plastics")]

def dictGet (table : List (String × String)) (key dflt : String) : String :=
  ((table.find? (fun p => p.1 == key)).map Prod.snd).getD dflt

def firstBinIcon (classes : List String) : Option String :=
  (BIN_ICON_IMAGES.find? (fun p => classes.contains p.1)).map Prod.snd

structure BinSection where
  heading : Option String
  iconDivClasses : Option (List String)
  nextDate : Option Int
  futureDates : List Int
deriving DecidableEq

structure CollectionEntry where
  date : Int
  dates : List Int
  type : String
  icon : String
  color : String
  days_until : Int
  bin_image : Option String
deriving DecidableEq

def sectionEntry (today : Int) (s : BinSection) : Option CollectionEntry :=
  match s.heading with
  | none => none
  | some wasteType =>
    let binImage := match s.iconDivClasses with
      | none => none
      | some classes => firstBinIcon classes
    let icon := dictGet WASTE_TYPE_ICONS wasteType "trash-can"
    let color := dictGet WASTE_TYPE_COLORS wasteType ""
    let allDates := s.nextDate.toList ++ s.futureDates
    match allDates with
    | [] => none
    | d0 :: _ =>
      some ⟨d0, allDates, wasteType, icon, color, d0 - today, binImage⟩

def dateLE (a b : CollectionEntry) : Bool :=
  a.date ≤ b.date

def get_collections (today : Int) (sections : List BinSection) : List CollectionEntry :=
  if sections.isEmpty then []
  else (sections.filterMap (sectionEntry today)).mergeSort dateLE

/-! ## Claim theorems -/

/-- C4: for every input string, `validate_postcode` returns true exactly when
the normalized form of the string matches the UK postcode grammar of the spec
(1–2 letters, 1–2 digits, optional letter, space, 1 digit, 2 letters); in
particular "SN15DX" normalizes to "SN1 5DX" and validates true, and "ZZ99"
validates false. -/
theorem c4_validate_postcode_iff_grammar :
    (∀ s : String, validate_postcode s = specGrammar (normalizeChars s.data))
    ∧ normalize_postcode "SN15DX" = "SN1 5DX"
    ∧ validate_postcode "SN15DX" = true
    ∧ validate_postcode "ZZ99" = false :=
  ⟨fun s => reMatch_normalize_eq_spec s.data, by decide, by decide, by decide⟩

/-- C10: postcode normalization is idempotent: normalizing an already
normalized postcode returns it unchanged, for every input string. -/
theorem c10_normalize_idempotent (s : String) :
    normalize_postcode (normalize_postcode s) = normalize_postcode s :=
  congrArg String.mk (normalizeChars_idem s.data)

/-- C6: a response that parses but contains zero collection blocks yields the
empty schedule, not an error. -/
theorem c6_zero_blocks_empty_result (today : Int) : get_collections today [] = [] :=
  rfl

/-- C3: `lookup` keeps exactly the dropdown options whose (stripped) value is
non-empty, not "0" or "-1", purely numeric and at least 8 characters long,
and whose label contains none of "select"/"choose"/"please" case-insensitively,
in upstream order; the example dropdown yields exactly the single candidate
100121147490 / "1 Nyland Road, SWINDON, SN1 5DX". -/
theorem c3_lookup_filters_options :
    (∀ options : List OptionTag,
      extractAddresses options =
        options.filterMap fun o =>
          if specKeep o then some ⟨stripStr o.value, o.text⟩ else none)
    ∧ extractAddresses
        [⟨"0", "Select an address"⟩, ⟨"100121147490", "1 Nyland Road, SWINDON, SN1 5DX"⟩]
        = [⟨"100121147490", "1 Nyland Road, SWINDON, SN1 5DX"⟩]
    ∧ lookupFromPage "SN1 5DX"
        [⟨some "addressList", none,
          [⟨"0", "Select an address"⟩, ⟨"100121147490", "1 Nyland Road, SWINDON, SN1 5DX"⟩]⟩]
        = .ok [⟨"100121147490", "1 Nyland Road, SWINDON, SN1 5DX"⟩] := by
  refine ⟨fun options => ?_, by decide, by rfl⟩
  unfold extractAddresses
  simp only [keepOption_eq_specKeep]

/-- C7: the two failure modes of `lookup` are distinguishable: when the
fallback chain finds no address container the raised error carries the
no-container message, when a container is found but zero candidates survive
filtering it carries the no-valid-addresses message, and these two messages
differ for every pair of postcodes, so a caller can tell the structural
failure apart from the empty-after-filtering failure.  (In the code both are
the single exception class UPRNLookupError; the kinds are distinguished by
the message text.) -/
theorem c7_two_error_kinds :
    (∀ (pc : String) (selects : List SelectTag),
      findAddressSelect selects = none →
      lookupFromPage pc selects = .error (noContainerMsg pc))
    ∧ (∀ (pc : String) (selects : List SelectTag) (sel : SelectTag),
      findAddressSelect selects = some sel →
      extractAddresses sel.options = [] →
      lookupFromPage pc selects = .error (noValidAddressesMsg pc))
    ∧ (∀ pc pc' : String, noContainerMsg pc ≠ noValidAddressesMsg pc') := by
  refine ⟨?_, ?_, ?_⟩
  · intro pc selects h
    unfold lookupFromPage
    rw [h]
  · intro pc selects sel hf he
    unfold lookupFromPage
    rw [hf]
    simp [he]
  · intro pc pc' h
    have hdata := congrArg String.data h
    simp only [noContainerMsg, noValidAddressesMsg, String.data_append] at hdata
    have h4 := congrArg (fun l : List Char => l[3]?) hdata
    simp only at h4
    rw [List.getElem?_append_left, List.getElem?_append_left,
      List.getElem?_append_left, List.getElem?_append_left] at h4
    · exact absurd h4 (by decide)
    · decide
    · simp only [List.length_append, List.length_cons, List.length_nil]
      omega
    · decide
    · simp only [List.length_append, List.length_cons, List.length_nil]
      omega

/-- C7 witness: both error shapes and their distinctness at concrete inputs:
an empty page (no select at all) and a page whose only dropdown holds a lone
placeholder option. -/
theorem c7_two_error_kinds_witness :
    lookupFromPage "SN1 5DX" [] = .error (noContainerMsg "SN1 5DX")
    ∧ lookupFromPage "SN1 5DX" [⟨some "addressList", none, [⟨"0", "Select an address"⟩]⟩]
        = .error (noValidAddressesMsg "SN1 5DX")
    ∧ noContainerMsg "SN1 5DX" ≠ noValidAddressesMsg "SN1 5DX" :=
  ⟨c7_two_error_kinds.1 "SN1 5DX" [] (by rfl),
   c7_two_error_kinds.2.1 "SN1 5DX"
     [⟨some "addressList", none, [⟨"0", "Select an address"⟩]⟩]
     ⟨some "addressList", none, [⟨"0", "Select an address"⟩]⟩ (by rfl) (by rfl),
   c7_two_error_kinds.2.2 "SN1 5DX" "SN1 5DX"⟩

/-- The concrete retry scenario of C2: HTTP 403 on the first two attempts,
HTTP 200 on the third. -/
def attempts403x2then200 : Nat → AttemptOutcome := fun n =>
  if n < 2 then .status 403 else .status 200

/-- An upstream that answers HTTP 403 on every attempt. -/
def attemptsAll403 : Nat → AttemptOutcome := fun _ =>
  .status 403

/-- C2: with maxAttempts = 3 and 403 on attempts 1 and 2 followed by 200 on
attempt 3, `_make_request` returns the attempt-3 response (index 2, 0-based)
and sleeps exactly twice, the delay before retry n (0-based) being
min(baseDelay·2^n, 30); and when all three attempts fail with 403 the run
still sleeps only twice — never after the final exhausted attempt. -/
theorem c2_backoff_403_then_success (base : Nat) :
    make_request 3 base attempts403x2then200 =
      ⟨.ok 2, [min (base * 2 ^ 0) 30, min (base * 2 ^ 1) 30]⟩
    ∧ (make_request 3 base attemptsAll403).sleeps =
        [min (base * 2 ^ 0) 30, min (base * 2 ^ 1) 30]
    ∧ (make_request 3 base attemptsAll403).result = .err "Rate limited by server (403)" := by
  refine ⟨?_, ?_, ?_⟩ <;>
    simp [make_request, makeRequestLoop, attempts403x2then200, attemptsAll403,
      addSleep, retryDelay]

theorem sectionEntry_days {today : Int} {s : BinSection} {e : CollectionEntry}
    (h : sectionEntry today s = some e) : e.days_until = e.date - today := by
  rcases s with ⟨heading, icl, nd, fd⟩
  rcases heading with _ | wt
  · simp [sectionEntry] at h
  · simp only [sectionEntry] at h
    rcases hall : (nd.toList ++ fd) with _ | ⟨d0, rest⟩ <;> rw [hall] at h
    · simp at h
    · simp only [Option.some.injEq] at h
      subst h
      rfl

theorem dateLE_trans (a b c : CollectionEntry) :
    dateLE a b → dateLE b c → dateLE a c := by
  simp only [dateLE, decide_eq_true_eq]
  omega

theorem dateLE_total (a b : CollectionEntry) : dateLE a b || dateLE b a := by
  simp only [dateLE, Bool.or_eq_true, decide_eq_true_eq]
  omega

/-- C5: every extraction result is sorted ascending by primary date, the sort
is stable for ties (filtering the result to any one date gives exactly the
pre-sort events of that date, in block order), every event's `days_until`
equals its date minus the extraction-time current date, and the result is a
permutation of the per-block events — in particular events with negative
`days_until` are kept, not filtered out. -/
theorem c5_sorted_days_until (today : Int) (sections : List BinSection) :
    ((get_collections today sections).Pairwise fun a b => a.date ≤ b.date)
    ∧ ((get_collections today sections).all fun e => e.days_until == e.date - today) = true
    ∧ (get_collections today sections).Perm (sections.filterMap (sectionEntry today))
    ∧ ∀ d : Int, (get_collections today sections).filter (fun e => e.date == d)
        = (sections.filterMap (sectionEntry today)).filter (fun e => e.date == d) := by
  by_cases hemp : sections.isEmpty
  · have hnil : sections = [] := List.isEmpty_iff.mp hemp
    subst hnil
    refine ⟨?_, ?_, ?_, ?_⟩ <;> simp [get_collections]
  · unfold get_collections
    rw [if_neg hemp]
    refine ⟨?_, ?_, ?_, ?_⟩
    · have hs := List.sorted_mergeSort dateLE_trans dateLE_total
        (sections.filterMap (sectionEntry today))
      exact hs.imp fun h => by simpa [dateLE] using h
    · rw [List.all_eq_true]
      intro e he
      rw [List.mem_mergeSort] at he
      rcases List.mem_filterMap.1 he with ⟨s, -, hs⟩
      simpa using sectionEntry_days hs
    · exact List.mergeSort_perm _ dateLE
    · intro d
      have hmemd : ∀ e ∈ (sections.filterMap (sectionEntry today)).filter
          (fun e => e.date == d), e.date = d := by
        intro e he
        simpa using List.of_mem_filter he
      have hpw : ((sections.filterMap (sectionEntry today)).filter
          (fun e => e.date == d)).Pairwise fun a b => dateLE a b := by
        refine List.pairwise_of_forall_mem_list fun a ha b hb => ?_
        simp [dateLE, hmemd a ha, hmemd b hb]
      have hsub := List.sublist_mergeSort dateLE_trans dateLE_total hpw
        (List.filter_sublist _)
      have hsub2 := hsub.filter (fun e => e.date == d)
      have hff : ((sections.filterMap (sectionEntry today)).filter
            (fun e => e.date == d)).filter (fun e => e.date == d)
          = (sections.filterMap (sectionEntry today)).filter (fun e => e.date == d) :=
        List.filter_eq_self.mpr fun a ha => (List.mem_filter.1 ha).2
      rw [hff] at hsub2
      have hlen := (((List.mergeSort_perm (sections.filterMap (sectionEntry today))
        dateLE).filter (fun e => e.date == d))).length_eq
      exact (hsub2.eq_of_length hlen.symm).symm

/-- An upstream that answers HTTP 500 on the first attempt and HTTP 200
afterwards. -/
def attempts500then200 : Nat → AttemptOutcome := fun n =>
  if n = 0 then .status 500 else .status 200

/-- C1 counterexample: with maxAttempts = 3, baseDelay = 2 and HTTP 500 (a
non-retryable status per the claim) on the first attempt, `_make_request`
does not propagate the failure immediately: it performs a backoff sleep of 2
and a further attempt, and returns that second attempt's 200 response.
`raise_for_status` raises `HTTPError`, a `RequestException`, which the
generic retry handler catches, so retry budget is consumed. -/
theorem c1_counterexample :
    (make_request 3 2 attempts500then200).result = .ok 1
    ∧ (make_request 3 2 attempts500then200).sleeps = [2]
    ∧ (make_request 3 2 attempts500then200).sleeps ≠ [] := by
  refine ⟨?_, ?_, ?_⟩ <;>
    simp [make_request, makeRequestLoop, attempts500then200, addSleep, retryDelay]

/-- C1 amended: a non-403 HTTP error status (4xx other than 403, or 5xx) is
treated exactly like a network error: while further attempts remain it
consumes retry budget — one backoff sleep of min(baseDelay·2^attempt, 30)
followed by the next attempt — and only when it occurs on the final attempt
does `_make_request` fail, raising `SwindonScraperError`. -/
theorem c1_amended (base : Nat) (outcomes : Nat → AttemptOutcome)
    (attempt rem code : Nat) (h : outcomes attempt = .status code)
    (h403 : code ≠ 403) (h4 : 400 ≤ code) (h6 : code < 600) :
    makeRequestLoop base outcomes (rem + 2) attempt
      = addSleep (retryDelay base attempt)
          (makeRequestLoop base outcomes (rem + 1) (attempt + 1))
    ∧ makeRequestLoop base outcomes 1 attempt
      = ⟨.err ("Failed to fetch data: HTTP " ++ toString code), []⟩ := by
  constructor
  · simp only [makeRequestLoop, h]
    rw [if_neg h403, if_pos (by simp [h4, h6])]
    simp
  · simp only [makeRequestLoop, h]
    rw [if_neg h403, if_pos (by simp [h4, h6])]
    simp

/-- C1 amended witness: the amended theorem applied at base delay 2, HTTP 500
on attempt 0, with one remaining retry and with none. -/
theorem c1_amended_witness :
    (attempts500then200 0 = .status 500 ∧ 500 ≠ 403 ∧ 400 ≤ 500 ∧ 500 < 600)
    ∧ makeRequestLoop 2 attempts500then200 2 0
        = addSleep (retryDelay 2 0) (makeRequestLoop 2 attempts500then200 1 1)
    ∧ makeRequestLoop 2 attempts500then200 1 0
        = ⟨.err ("Failed to fetch data: HTTP " ++ toString 500), []⟩ :=
  ⟨⟨by decide, by decide, by decide, by decide⟩,
   (c1_amended 2 attempts500then200 0 0 500 (by decide) (by decide) (by decide)
     (by decide)).1,
   (c1_amended 2 attempts500then200 0 0 500 (by decide) (by decide) (by decide)
     (by decide)).2⟩

/-- A collection block as scraped for a rubbish bin due on day 10. -/
def dupSection : BinSection := ⟨some "Rubbish bin", none, some 10, []⟩

/-- C8 counterexample: `get_collections` performs no deduplication — a
response containing the same collection block twice produces two events with
the identical (date, wasteType) pair, so events are not in general unique per
(date, wasteType). -/
theorem c8_counterexample :
    (get_collections 0 [dupSection, dupSection]).map (fun e => (e.date, e.type))
      = [((10 : Int), "Rubbish bin"), (10, "Rubbish bin")]
    ∧ ¬ ((get_collections 0 [dupSection, dupSection]).map
        (fun e => (e.date, e.type))).Nodup := by
  have hc : (get_collections 0 [dupSection, dupSection]).map (fun e => (e.date, e.type))
      = [((10 : Int), "Rubbish bin"), (10, "Rubbish bin")] := by
    simp [get_collections, List.mergeSort, dupSection, sectionEntry, dateLE,
      List.merge, dictGet]
  refine ⟨hc, ?_⟩
  rw [hc]
  decide

/-- C8 amended: uniqueness of events per (date, wasteType) holds exactly when
the blocks themselves induce pairwise-distinct (date, wasteType) pairs: the
extractor never merges or drops duplicates, it only reorders, so whenever the
per-block events have no duplicate (date, wasteType) pair, neither does the
result. -/
theorem c8_amended (today : Int) (sections : List BinSection)
    (h : ((sections.filterMap (sectionEntry today)).map
      fun e => (e.date, e.type)).Nodup) :
    (get_collections today sections).Pairwise
      fun a b => (a.date, a.type) ≠ (b.date, b.type) := by
  have hpw : (sections.filterMap (sectionEntry today)).Pairwise
      fun a b => (a.date, a.type) ≠ (b.date, b.type) := List.pairwise_map.1 h
  by_cases hemp : sections.isEmpty
  · have hnil : sections = [] := List.isEmpty_iff.mp hemp
    subst hnil
    simp [get_collections]
  · unfold get_collections
    rw [if_neg hemp]
    have hperm := List.mergeSort_perm (sections.filterMap (sectionEntry today)) dateLE
    exact (hperm.pairwise_iff fun hab h => hab h.symm).2 hpw

/-- C8 amended witness: two distinct blocks (rubbish on day 12, garden on day
10) satisfy the distinctness hypothesis and give a duplicate-free result. -/
theorem c8_amended_witness :
    (([⟨some "Rubbish bin", none, some 12, [19]⟩,
       ⟨some "Garden waste bin", none, some 10, []⟩].filterMap
        (sectionEntry 0)).map fun e => (e.date, e.type)).Nodup
    ∧ (get_collections 0 [⟨some "Rubbish bin", none, some 12, [19]⟩,
        ⟨some "Garden waste bin", none, some 10, []⟩]).Pairwise
        fun a b => (a.date, a.type) ≠ (b.date, b.type) :=
  ⟨by decide,
   c8_amended 0 [⟨some "Rubbish bin", none, some 12, [19]⟩,
     ⟨some "Garden waste bin", none, some 10, []⟩] (by decide)⟩

/-- A rubbish-bin block carrying the garden-bin visual icon marker. -/
def markedSection : BinSection :=
  ⟨some "Rubbish bin", some ["bin-icons", "garden-bin-icon"], some 5, []⟩

/-- The same block without any visual icon marker. -/
def unmarkedSection : BinSection := ⟨some "Rubbish bin", none, some 5, []⟩

/-- C9 counterexample: a recognized visual icon marker does not determine the
event's icon key: with the garden icon class present on a "Rubbish bin"
block, the extracted event's icon field is still the text-mapped "trash-can",
identical to the marker-free block; the marker only populates the separate
bin_image field. -/
theorem c9_counterexample :
    (get_collections 0 [markedSection]).map (fun e => (e.icon, e.bin_image))
      = [("trash-can", some (BASE_URL ++ "/images/green_waste_wheelie_swindon.png"))]
    ∧ (get_collections 0 [unmarkedSection]).map (fun e => (e.icon, e.bin_image))
      = [("trash-can", none)]
    ∧ dictGet WASTE_TYPE_ICONS "Rubbish bin" "trash-can" = "trash-can" := by
  refine ⟨?_, ?_, by rfl⟩ <;>
    simp [get_collections, List.mergeSort, markedSection, unmarkedSection, sectionEntry,
      dictGet, firstBinIcon, WASTE_TYPE_ICONS, WASTE_TYPE_COLORS, BIN_ICON_IMAGES]

/-- C9 amended: for every extracted event, the icon field is always the
text-based lookup of the heading in the fixed table (default "trash-can"),
independent of any visual marker, and the bin_image field is the image URL of
the first recognized icon class on the block's bin-icons element (none when
the element or a recognized class is absent): the marker determines only
bin_image, never the icon key. -/
theorem c9_amended (today : Int) (s : BinSection) (e : CollectionEntry) (wt : String)
    (h : sectionEntry today s = some e) (hw : s.heading = some wt) :
    e.icon = dictGet WASTE_TYPE_ICONS wt "trash-can"
    ∧ e.bin_image = (match s.iconDivClasses with
        | none => none
        | some classes => firstBinIcon classes) := by
  rcases s with ⟨heading, icl, nd, fd⟩
  simp only at hw
  subst hw
  simp only [sectionEntry] at h
  rcases hall : (nd.toList ++ fd) with _ | ⟨d0, rest⟩ <;> rw [hall] at h
  · simp at h
  · simp only [Option.some.injEq] at h
    subst h
    exact ⟨rfl, rfl⟩

/-- C9 amended witness: the amended theorem applied to the marked rubbish-bin
block. -/
theorem c9_amended_witness :
    (sectionEntry 0 markedSection
        = some ⟨5, [5], "Rubbish bin", "trash-can", "rubbish", 5,
            some (BASE_URL ++ "/images/green_waste_wheelie_swindon.png")⟩
      ∧ markedSection.heading = some "Rubbish bin")
    ∧ (⟨(5 : Int), [5], "Rubbish bin", "trash-can", "rubbish", 5,
          some (BASE_URL ++ "/images/green_waste_wheelie_swindon.png")⟩ :
        CollectionEntry).icon = dictGet WASTE_TYPE_ICONS "Rubbish bin" "trash-can"
    ∧ (⟨(5 : Int), [5], "Rubbish bin", "trash-can", "rubbish", 5,
          some (BASE_URL ++ "/images/green_waste_wheelie_swindon.png")⟩ :
        CollectionEntry).bin_image = (match markedSection.iconDivClasses with
        | none => none
        | some classes => firstBinIcon classes) :=
  ⟨⟨by rfl, by rfl⟩,
   (c9_amended 0 markedSection _ "Rubbish bin" (by rfl) (by rfl)).1,
   (c9_amended 0 markedSection _ "Rubbish bin" (by rfl) (by rfl)).2⟩

end SwindonWaste
